import Mathlib

/-!
Shallow embedding of `deerlab/fitmultimodel.py` (multi-component SNLLS
model-selection engine) and proofs about it.

Conventions of the embedding:
* numpy float vectors become `List ℚ` (the claims under study are about
  exact algebraic structure, lengths and control flow, not rounding);
* external library calls (`np.log`, `np.sqrt`, `dl.snlls`, the random
  generator, `goodness_of_fit`) are passed in as explicit function
  parameters, since the spec treats them as black-box collaborators;
* `np.inf` upper bounds are modelled by `Option ℚ` entries (`none` =
  unbounded);
* Python lists accumulated with `.append` become `List` values built with
  `++ [x]`.
-/

namespace FitMultiModel

/-! ### np.argmin over the criterion sequences (fitmultimodel.py line 303)

`np.argmin` returns the index of the minimum value; when the minimum is
attained several times it returns the first occurrence. -/

/-- Minimum of a rational list (0 for the empty list, which never occurs in
the engine: the candidate loop runs at least once). -/
def listMin : List ℚ → ℚ
  | [] => 0
  | [x] => x
  | x :: y :: r => min x (listMin (y :: r))

/-- Index of the first occurrence of the minimum, as `np.argmin` computes it. -/
def argmin : List ℚ → Nat
  | [] => 0
  | [_] => 0
  | x :: y :: r => if x ≤ listMin (y :: r) then 0 else argmin (y :: r) + 1

/-! ### Likelihood estimator bank (`logestimators`, lines 214-241)

The external `np.log` and `np.sqrt` are passed in as parameters `rlog` and
`rsqrt`. On the first call the loop passes the non-dict `[]`, which the
function replaces by a dictionary of four empty lists; this is modelled by
an `Option Functionals` argument. -/

/-- The dictionary `{'rmsd':..,'aic':..,'aicc':..,'bic':..}` of parallel
criterion sequences, indexed by component count. -/
structure Functionals where
  rmsd : List ℚ
  aic : List ℚ
  aicc : List ℚ
  bic : List ℚ
deriving DecidableEq, Inhabited

def Functionals.empty : Functionals := ⟨[], [], [], []⟩

/-- `np.sum((V - Vfit)**2)`. -/
def squaredSumRes (V Vfit : List ℚ) : ℚ :=
  ((V.zip Vfit).map (fun p => (p.1 - p.2) ^ 2)).sum

/-- `logestimators(V, Vfit, plin, pnonlin, functionals)`. -/
def logestimators (rlog rsqrt : ℚ → ℚ) (weights : ℚ) (V Vfit plin pnonlin : List ℚ)
    (functionals : Option Functionals) : Functionals :=
  let F := functionals.getD Functionals.empty
  let nParams : ℚ := (pnonlin.length : ℚ) + (plin.length : ℚ)
  let Q : ℚ := nParams + 1
  let N : ℚ := (V.length : ℚ)
  let S : ℚ := squaredSumRes V Vfit
  let logprob := weights * N * rlog (S / N)
  let rmsd := weights * rsqrt (1 / N * S)
  let aic := logprob + 2 * Q
  let aicc := logprob + 2 * Q + 2 * Q * (Q + 1) / (N - Q - 1)
  let bic := logprob + Q * rlog N
  { rmsd := F.rmsd ++ [rmsd]
    aic := F.aic ++ [aic]
    aicc := F.aicc ++ [aicc]
    bic := F.bic ++ [bic] }

/-! ### Candidate records and model selection (lines 243-312)

Per candidate component count the loop appends the fitted signal, fitted
distribution, linear and non-linear parameters and the four bound vectors;
after the loop `idx = np.argmin(logest[method])` selects all of them. -/

/-- The requested criterion name, `method` in `{'aic','aicc','bic','rmsd'}`. -/
inductive Method where
  | aic
  | aicc
  | bic
  | rmsd
deriving DecidableEq, Inhabited

/-- `logest[method]`: the criterion sequence the selector minimises. -/
def Functionals.select (F : Functionals) : Method → List ℚ
  | .aic => F.aic
  | .aicc => F.aicc
  | .bic => F.bic
  | .rmsd => F.rmsd

/-- Everything the candidate loop stores for one component count
(`Vfit`, `Pfit`, `pnonlin_`, `plin_`, `nlin_lb_`, `nlin_ub_`, `lin_lb_`,
`lin_ub_` entries at one index). Unbounded entries (`np.inf` in `lin_ub`)
are `none`. -/
structure CandRecord where
  Vfit : List ℚ
  Pfit : List ℚ
  pnonlin : List ℚ
  plin : List ℚ
  nlin_lb : List ℚ
  nlin_ub : List ℚ
  lin_lb : List ℚ
  lin_ub : List (Option ℚ)
deriving DecidableEq, Inhabited

/-- Lines 299-312: `idx = np.argmin(logest[method])`; every stored
per-candidate artifact at `idx` becomes the selected result. -/
def selectModel (F : Functionals) (m : Method) (records : List CandRecord) :
    Nat × CandRecord :=
  let idx := argmin (F.select m)
  (idx, records.getD idx default)

/-! ### Reproducible random start vectors (lines 249-265)

`np.random` is a process-wide stateful generator; the engine calls
`np.random.seed(1)` before every draw. The generator is modelled as an
abstract state machine `RNG σ`: `seed n` returns the state after seeding
with `n`, `uniform s low high` returns the drawn vector and the successor
state. -/

structure RNG (σ : Type) where
  seed : Nat → σ
  uniform : σ → List ℚ → List ℚ → List ℚ × σ

/-- `np.matlib.repmat(v, 1, n)` flattened: `v` repeated `n` times. -/
def repmat (v : List ℚ) (n : Nat) : List ℚ :=
  (List.replicate n v).flatten

/-- Lines 263-265 for one candidate: re-seed to the fixed seed 1, then draw
uniformly within the non-linear bounds. The incoming generator state is
overwritten by the re-seeding. -/
def drawStart {σ : Type} (g : RNG σ) (_s : σ) (nlin_lb nlin_ub : List ℚ) :
    List ℚ × σ :=
  g.uniform (g.seed 1) nlin_lb nlin_ub

/-- The start-vector draws of the candidate loop for `N = 1 .. maxModels`,
threading the generator state across iterations as the process-wide
`np.random` state is threaded. Returns the drawn `par0` vectors in loop
order and the final generator state. -/
def startVectors {σ : Type} (g : RNG σ) (s : σ) (lbK ubK lb0 ub0 : List ℚ) :
    Nat → List (List ℚ) × σ
  | 0 => ([], s)
  | n + 1 =>
    let prev := startVectors g s lbK ubK lb0 ub0 n
    let nlin_lb := lbK ++ repmat lb0 (n + 1)
    let nlin_ub := ubK ++ repmat ub0 (n + 1)
    let draw := drawStart g prev.2 nlin_lb nlin_ub
    (prev.1 ++ [draw.1], draw.2)

/-! ### Kernel-parameter bound check (lines 148-151)

`if len(lbK) is not nKparam or len(ubK) is not nKparam: raise ValueError`.
(The Python `is not` on ints coincides with `!=` for the small interned
values arising as kernel arities.) The check runs before the candidate
loop, so a mismatch aborts the run with no loop iteration executed. -/

def kernelBoundsCheck (lbK ubK : List ℚ) (nKparam : Nat) : Except String Unit :=
  if lbK.length ≠ nKparam ∨ ubK.length ≠ nKparam then
    Except.error "The upper/lower bounds of the kernel parameters must be nKparam-element arrays"
  else
    Except.ok ()

/-- The bound check followed by the candidate loop (represented by its
start-vector draws): the fail-fast structure of lines 148-265. -/
def checkedRun {σ : Type} (g : RNG σ) (s : σ) (lbK ubK lb0 ub0 : List ℚ)
    (nKparam maxModels : Nat) : Except String (List (List ℚ)) :=
  match kernelBoundsCheck lbK ubK nKparam with
  | Except.error e => Except.error e
  | Except.ok _ => Except.ok (startVectors g s lbK ubK lb0 ub0 maxModels).1

/-! ### Kernel arity probing (lines 130-146)

For a callable kernel the source runs `while notEnoughParam:` incrementing
`nKparam` and calling `Kmodel(np.random.uniform(size=nKparam))` until a
call does not raise; the loop has no upper bound. The callable is
abstracted by the predicate `succeeds n` = "a call with an `n`-vector does
not raise". The unbounded `while` is embedded with explicit fuel: `none`
means the loop has not terminated within `fuel` iterations. -/

def detectArity (succeeds : Nat → Bool) : Nat → Nat → Option Nat
  | 0, _ => none
  | fuel + 1, nKparam =>
    if succeeds (nKparam + 1) then some (nKparam + 1)
    else detectArity succeeds fuel (nKparam + 1)

/-- The probe starting from `nKparam = 0`, as the source initialises it. -/
def kernelArity (succeeds : Nat → Bool) (fuel : Nat) : Option Nat :=
  detectArity succeeds fuel 0

/-- Lines 142-146: a fixed matrix kernel gets arity 0 and is wrapped as a
constant function ignoring its parameter argument. -/
def matrixKernelArity : Nat := 0

def matrixKernel {κ : Type} (K : κ) : List ℚ → κ := fun _ => K

/-! ### Per-candidate amplitude fit (lines 267-278)

The external SNLLS solver is abstracted as a function from the scaled
signal and the linear box constraints to the linear parameter vector it
returns. The source scales the signal by `scale = 1e2` before the call and
divides the returned linear parameters by the same constant. -/

def candidateAmplitudes (solver : List ℚ → List ℚ → List (Option ℚ) → List ℚ)
    (V : List ℚ) (Nmodels : Nat) : List ℚ :=
  let lin_lb : List ℚ := List.replicate Nmodels 1
  let lin_ub : List (Option ℚ) := List.replicate Nmodels none
  let scale : ℚ := 100
  let plin := solver (V.map (· * scale)) lin_lb lin_ub
  plin.map (· / scale)

/-- A solver that returns exactly the linear lower bounds it is given:
its output satisfies the box constraints. -/
def boxRespectingSolver : List ℚ → List ℚ → List (Option ℚ) → List ℚ :=
  fun _ lin_lb _ => lin_lb

/-! ### Packing of the fitted parameters (lines 314-319) -/

/-- `fitparam = [pnonlin[0:nKparam], pnonlin[nKparam:nKparam+nparam], plin]`. -/
def packParams (pnonlin plin : List ℚ) (nKparam nparam : Nat) :
    List ℚ × List ℚ × List ℚ :=
  (pnonlin.take nKparam, (pnonlin.drop nKparam).take nparam, plin)

/-! ### Goodness of fit, renormalization and reporting (lines 321-362) -/

/-- The distribution-space uncertainty object, reduced to the interface the
engine touches after construction: its confidence-interval function
`.ci`. A query maps a coverage percentage to a vector of interval bounds
over the axis. -/
structure UncertQuant where
  ci : ℚ → List ℚ

/-- `np.trapz(y, x)`: trapezoidal quadrature over the axis. -/
def trapz : List ℚ → List ℚ → ℚ
  | y1 :: y2 :: ys, x1 :: x2 :: xs =>
      (x2 - x1) * (y1 + y2) / 2 + trapz (y2 :: ys) (x2 :: xs)
  | _, _ => 0

/-- Everything `fitmultimodel` returns. -/
structure FitOutput where
  Pfit : List ℚ
  fitparam : List ℚ × List ℚ × List ℚ
  Puq : UncertQuant
  paramuq : UncertQuant
  fcnals : List ℚ
  Peval : List (List ℚ)
  stats : List (List ℚ)

/-- Lines 346-362: per-subset goodness-of-fit statistics (the external
`goodness_of_fit` is the parameter `gof`), then the optional
renormalization of the selected distribution and of the distribution-space
confidence intervals, then assembly of the returned tuple. `Puq_` is the
snapshot (`copy.deepcopy(Puq)`) whose `ci` the rewrapped function queries. -/
def finalizeFit (gof : List ℚ → List ℚ → Int → List ℚ)
    (Vsubsets : List (List Nat)) (V Vfit : List ℚ) (nKparam nparam Nopt : Nat)
    (normP uqanalysis : Bool) (r Pfit : List ℚ)
    (fitparam : List ℚ × List ℚ × List ℚ) (Puq paramuq : UncertQuant)
    (fcnals : List ℚ) (Peval : List (List ℚ)) : FitOutput :=
  let stats := Vsubsets.map (fun subset =>
    let Vs := subset.map (fun i => V.getD i 0)
    let Vfits := subset.map (fun i => Vfit.getD i 0)
    let Ndof : Int := (Vs.length : Int) - ((nKparam : Int) + nparam + Nopt)
    gof Vs Vfits Ndof)
  if normP then
    let Pnorm := trapz Pfit r
    let PfitN := Pfit.map (· / Pnorm)
    let PuqN :=
      if uqanalysis then { ci := fun p => (Puq.ci p).map (· / Pnorm) } else Puq
    ⟨PfitN, fitparam, PuqN, paramuq, fcnals, Peval, stats⟩
  else
    ⟨Pfit, fitparam, Puq, paramuq, fcnals, Peval, stats⟩

/-! ### Concrete instantiations used to exercise the engine -/

/-- A trivial deterministic generator used to instantiate the abstract
`np.random` interface on concrete runs. -/
def unitRNG : RNG Unit where
  seed := fun _ => ()
  uniform := fun _ low _ => (low, ())

/-- A concrete criterion dictionary: `aic` scores `[3, 1, 1]`, so the
minimum 1 is attained at indices 1 and 2. -/
def exampleFunctionals : Functionals := ⟨[], [3, 1, 1], [], []⟩

/-- Three distinct concrete candidate records. -/
def exampleRecords : List CandRecord :=
  [⟨[1], [1], [1], [1], [1], [1], [1], [none]⟩,
   ⟨[2], [2], [2], [2], [2], [2], [2], [none]⟩,
   ⟨[3], [3], [3], [3], [3], [3], [3], [none]⟩]

/-! ## Helper lemmas for `np.argmin` -/

theorem listMin_le_getD : ∀ (l : List ℚ), ∀ i < l.length, listMin l ≤ l.getD i 0
  | [x], 0, _ => le_refl x
  | x :: y :: r, 0, _ => min_le_left _ _
  | x :: y :: r, i + 1, h => by
      have ih := listMin_le_getD (y :: r) i (by simpa using h)
      calc listMin (x :: y :: r) ≤ listMin (y :: r) := min_le_right _ _
        _ ≤ (y :: r).getD i 0 := ih

theorem argmin_lt_length : ∀ (l : List ℚ), l ≠ [] → argmin l < l.length
  | [], h => absurd rfl h
  | [x], _ => Nat.zero_lt_one
  | x :: y :: r, _ => by
      by_cases hx : x ≤ listMin (y :: r)
      · simp [argmin, hx]
      · have ih := argmin_lt_length (y :: r) (by simp)
        simp only [argmin, hx, if_false, List.length_cons] at ih ⊢
        omega

theorem getD_argmin : ∀ (l : List ℚ), l ≠ [] → l.getD (argmin l) 0 = listMin l
  | [], h => absurd rfl h
  | [x], _ => rfl
  | x :: y :: r, _ => by
      by_cases hx : x ≤ listMin (y :: r)
      · simp [argmin, hx, listMin]
      · have ih := getD_argmin (y :: r) (by simp)
        have hlt : listMin (y :: r) < x := lt_of_not_le hx
        simp only [argmin, hx, if_false, List.getD_cons_succ, listMin]
        rw [ih, min_eq_right (le_of_lt hlt)]

theorem getD_lt_of_lt_argmin :
    ∀ (l : List ℚ), ∀ j < argmin l, listMin l < l.getD j 0
  | [], j, h => by simp [argmin] at h
  | [x], j, h => by simp [argmin] at h
  | x :: y :: r, j, h => by
      by_cases hx : x ≤ listMin (y :: r)
      · simp [argmin, hx] at h
      · have hlt : listMin (y :: r) < x := lt_of_not_le hx
        have hmin : listMin (x :: y :: r) = listMin (y :: r) :=
          min_eq_right (le_of_lt hlt)
        simp only [argmin, hx, if_false] at h
        match j with
        | 0 => simpa [hmin] using hlt
        | j + 1 =>
            have ih := getD_lt_of_lt_argmin (y :: r) j (by omega)
            simpa [hmin] using ih

/-! ## Claim theorems -/

/-- C6: for every candidate, given observed signal `V` of length `N`, fitted
signal `Vfit`, linear parameter count `p_lin`, non-linear parameter count
`p_nl`, weight `w`, and residual sum of squares `S`, the estimator bank
computes `Q = p_lin + p_nl + 1`, `logprob = w*N*ln(S/N)`,
`rmsd = w*sqrt(S/N)`, `aic = logprob + 2Q`, `bic = logprob + Q*ln(N)`, and
appends all four values to the parallel criterion sequences. -/
theorem C6_estimator_bank_formulas (rlog rsqrt : ℚ → ℚ) (w : ℚ)
    (V Vfit plin pnonlin : List ℚ) (functionals : Option Functionals) :
    logestimators rlog rsqrt w V Vfit plin pnonlin functionals =
      { rmsd := (functionals.getD Functionals.empty).rmsd ++
          [w * rsqrt (squaredSumRes V Vfit / (V.length : ℚ))]
        aic := (functionals.getD Functionals.empty).aic ++
          [w * (V.length : ℚ) * rlog (squaredSumRes V Vfit / (V.length : ℚ)) +
            2 * ((plin.length : ℚ) + (pnonlin.length : ℚ) + 1)]
        aicc := (functionals.getD Functionals.empty).aicc ++
          [w * (V.length : ℚ) * rlog (squaredSumRes V Vfit / (V.length : ℚ)) +
            2 * ((plin.length : ℚ) + (pnonlin.length : ℚ) + 1) +
            2 * ((plin.length : ℚ) + (pnonlin.length : ℚ) + 1) *
              (((plin.length : ℚ) + (pnonlin.length : ℚ) + 1) + 1) /
              ((V.length : ℚ) - ((plin.length : ℚ) + (pnonlin.length : ℚ) + 1) - 1)]
        bic := (functionals.getD Functionals.empty).bic ++
          [w * (V.length : ℚ) * rlog (squaredSumRes V Vfit / (V.length : ℚ)) +
            ((plin.length : ℚ) + (pnonlin.length : ℚ) + 1) * rlog (V.length : ℚ)] } := by
  have hQ : (pnonlin.length : ℚ) + (plin.length : ℚ) + 1 =
      (plin.length : ℚ) + (pnonlin.length : ℚ) + 1 := by ring
  simp only [logestimators, one_div_mul_eq_div, hQ]

/-- C3: on a candidate with `N - Q - 1 <= 0` (here signal length `N = 4`,
`p_lin = 1`, `p_nl = 2`, so `Q = 4` and `N - Q - 1 = -1`), the estimator
bank does not report any degenerate-model condition: it silently evaluates
the AICc formula with the non-positive denominator and appends the finite
number `logprob + 2Q + 2Q(Q+1)/(N-Q-1) = 0 + 8 - 40 = -32` to the
comparable sequence. -/
theorem C3_aicc_degenerate_silently_computed :
    ((4 : ℚ) - ((1 : ℚ) + 2 + 1) - 1 < 0) ∧
    (logestimators (fun _ => 0) (fun _ => 0) 1 [1, 0, 0, 0] [0, 0, 0, 0]
        [5] [3, 4] none).aicc = [-32] := by
  constructor
  · norm_num
  · simp only [logestimators, squaredSumRes, Functionals.empty]
    norm_num

theorem detectArity_all_fail (fuel : Nat) :
    ∀ start, detectArity (fun _ => false) fuel start = none := by
  induction fuel with
  | zero => intro start; rfl
  | succ n ih => intro start; simp [detectArity, ih]

/-- C4: the source's arity-probing `while` loop has no iteration cap and no
configuration error: for a kernel callable whose calls fail at every probed
length, the probe has found no arity after any finite number of iterations,
so the unbounded loop never terminates (instead of raising a
`ConfigurationError` at a small bound as the spec mandates). -/
theorem C4_arity_probe_unbounded :
    ∀ fuel, kernelArity (fun _ => false) fuel = none :=
  fun fuel => detectArity_all_fail fuel 0

/-- C9: the second element of the packed-parameter triple is exactly the
first component's shape-parameter slice `pnonlin[nKparam:nKparam+nparam]`:
it has length `nparam` even when `Nopt > 1`, and the remaining
`(Nopt-1)*nparam` shape parameters of components `2..Nopt` are the part of
the non-linear vector it leaves out. -/
theorem C9_packed_shape_params_first_component_only
    (pnonlin plin : List ℚ) (nKparam nparam Nopt : Nat)
    (hlen : pnonlin.length = nKparam + Nopt * nparam) (hN : 1 ≤ Nopt) :
    (packParams pnonlin plin nKparam nparam).2.1.length = nparam ∧
    (packParams pnonlin plin nKparam nparam).2.1 ++ (pnonlin.drop nKparam).drop nparam
      = pnonlin.drop nKparam ∧
    ((pnonlin.drop nKparam).drop nparam).length = (Nopt - 1) * nparam := by
  obtain ⟨k, rfl⟩ : ∃ k, Nopt = k + 1 := ⟨Nopt - 1, by omega⟩
  have hdroplen : (pnonlin.drop nKparam).length = (k + 1) * nparam := by
    simp [List.length_drop, hlen]
  have hle : nparam ≤ (k + 1) * nparam := by
    calc nparam = 1 * nparam := (one_mul _).symm
      _ ≤ (k + 1) * nparam := Nat.mul_le_mul_right _ (by omega)
  refine ⟨?_, ?_, ?_⟩
  · simp [packParams, List.length_take, hdroplen, min_eq_left hle]
  · simp [packParams, List.take_append_drop]
  · simp only [List.length_drop, hdroplen, Nat.add_sub_cancel]
    rw [Nat.succ_mul]
    omega

/-- C9 witness: `pnonlin = [10,1,2,3,4]` with `nKparam = 1`, `nparam = 2`,
`Nopt = 2`. -/
theorem C9_witness :
    ([10, 1, 2, 3, 4] : List ℚ).length = 1 + 2 * 2 ∧ 1 ≤ 2 ∧
    ((packParams [10, 1, 2, 3, 4] [7, 8] 1 2).2.1.length = 2 ∧
     (packParams [10, 1, 2, 3, 4] [7, 8] 1 2).2.1 ++
        (([10, 1, 2, 3, 4] : List ℚ).drop 1).drop 2
        = ([10, 1, 2, 3, 4] : List ℚ).drop 1 ∧
     ((([10, 1, 2, 3, 4] : List ℚ).drop 1).drop 2).length = (2 - 1) * 2) :=
  ⟨by decide, by decide,
    C9_packed_shape_params_first_component_only [10, 1, 2, 3, 4] [7, 8] 1 2 2
      (by decide) (by decide)⟩

theorem startVectors_closed_form {σ : Type} (g : RNG σ) (s : σ)
    (lbK ubK lb0 ub0 : List ℚ) :
    ∀ M, (startVectors g s lbK ubK lb0 ub0 M).1 =
      (List.range M).map (fun n =>
        (g.uniform (g.seed 1) (lbK ++ repmat lb0 (n + 1))
          (ubK ++ repmat ub0 (n + 1))).1) := by
  intro M
  induction M with
  | zero => rfl
  | succ n ih =>
      simp only [startVectors, drawStart, List.range_succ, List.map_append,
        List.map_cons, List.map_nil, ih]

/-- C7: the generator is re-seeded to the fixed seed 1 before every draw,
so the drawn start vector for each candidate `N` is the draw from the
freshly seeded state at the bounds for `N`; in particular two runs of the
candidate loop on identical inputs from arbitrary (distinct) initial
generator states produce identical start-vector sequences. -/
theorem C7_reproducible_start_vectors {σ : Type} (g : RNG σ) (s t : σ)
    (lbK ubK lb0 ub0 : List ℚ) (M : Nat) :
    (startVectors g s lbK ubK lb0 ub0 M).1 = (startVectors g t lbK ubK lb0 ub0 M).1 ∧
    (startVectors g s lbK ubK lb0 ub0 M).1 =
      (List.range M).map (fun n =>
        (g.uniform (g.seed 1) (lbK ++ repmat lb0 (n + 1))
          (ubK ++ repmat ub0 (n + 1))).1) := by
  refine ⟨?_, startVectors_closed_form g s lbK ubK lb0 ub0 M⟩
  rw [startVectors_closed_form g s lbK ubK lb0 ub0 M,
    startVectors_closed_form g t lbK ubK lb0 ub0 M]

/-- C8: the run raises the kernel-bound configuration error exactly when
the supplied kernel-parameter lower- or upper-bound vector has length
different from the detected arity, and it does so before the candidate
loop: on matching lengths the check passes and the candidate loop's draws
are produced. -/
theorem C8_kernel_bounds_fail_fast {σ : Type} (g : RNG σ) (s : σ)
    (lbK ubK lb0 ub0 : List ℚ) (nKparam maxModels : Nat) :
    ((∃ e, checkedRun g s lbK ubK lb0 ub0 nKparam maxModels = Except.error e) ↔
      (lbK.length ≠ nKparam ∨ ubK.length ≠ nKparam)) ∧
    (checkedRun g s lbK ubK lb0 ub0 nKparam maxModels =
        Except.ok (startVectors g s lbK ubK lb0 ub0 maxModels).1 ↔
      (lbK.length = nKparam ∧ ubK.length = nKparam)) := by
  by_cases h : lbK.length ≠ nKparam ∨ ubK.length ≠ nKparam
  · constructor
    · simp only [checkedRun, kernelBoundsCheck, if_pos h]
      exact ⟨fun _ => h, fun _ => ⟨_, rfl⟩⟩
    · simp only [checkedRun, kernelBoundsCheck, if_pos h]
      constructor
      · intro hcontra; exact absurd hcontra (by simp)
      · intro hmatch; exact absurd h (by simp [hmatch.1, hmatch.2])
  · constructor
    · simp only [checkedRun, kernelBoundsCheck, if_neg h]
      constructor
      · rintro ⟨e, he⟩; exact absurd he (by simp)
      · intro hcontra; exact absurd hcontra h
    · simp only [checkedRun, kernelBoundsCheck, if_neg h]
      constructor
      · intro _; push_neg at h; exact h
      · intro _; trivial

/-- C8 witness: with arity 1 and a 1-element lower bound but an empty upper
bound the run errors out; with matching 1-element bounds it returns the
loop's draws. -/
theorem C8_witness :
    (∃ e, checkedRun unitRNG () [0] [] [] [] 1 2 = Except.error e) ∧
    checkedRun unitRNG () [0] [5] [] [] 1 2 =
      Except.ok (startVectors unitRNG () [0] [5] [] [] 2).1 :=
  ⟨(C8_kernel_bounds_fail_fast unitRNG () [0] [] [] [] 1 2).1.mpr (by decide),
   (C8_kernel_bounds_fail_fast unitRNG () [0] [5] [] [] 1 2).2.mpr (by decide)⟩

/-- C10: enabling renormalization changes only the returned distribution
and the distribution-space uncertainty object: with identical inputs, the
`normP = true` and `normP = false` runs of the reporting stage return the
same packed parameters, parameter-space uncertainty object,
criterion-score sequence, all-candidate distribution collection, and
goodness-of-fit statistics (the statistics are computed from the fitted
signal before the normalization branch). -/
theorem C10_normalization_frame_effect (gof : List ℚ → List ℚ → Int → List ℚ)
    (Vsubsets : List (List Nat)) (V Vfit : List ℚ) (nKparam nparam Nopt : Nat)
    (uqanalysis : Bool) (r Pfit : List ℚ) (fitparam : List ℚ × List ℚ × List ℚ)
    (Puq paramuq : UncertQuant) (fcnals : List ℚ) (Peval : List (List ℚ)) :
    (finalizeFit gof Vsubsets V Vfit nKparam nparam Nopt true uqanalysis r Pfit
        fitparam Puq paramuq fcnals Peval).fitparam =
      (finalizeFit gof Vsubsets V Vfit nKparam nparam Nopt false uqanalysis r Pfit
        fitparam Puq paramuq fcnals Peval).fitparam ∧
    (finalizeFit gof Vsubsets V Vfit nKparam nparam Nopt true uqanalysis r Pfit
        fitparam Puq paramuq fcnals Peval).paramuq =
      (finalizeFit gof Vsubsets V Vfit nKparam nparam Nopt false uqanalysis r Pfit
        fitparam Puq paramuq fcnals Peval).paramuq ∧
    (finalizeFit gof Vsubsets V Vfit nKparam nparam Nopt true uqanalysis r Pfit
        fitparam Puq paramuq fcnals Peval).fcnals =
      (finalizeFit gof Vsubsets V Vfit nKparam nparam Nopt false uqanalysis r Pfit
        fitparam Puq paramuq fcnals Peval).fcnals ∧
    (finalizeFit gof Vsubsets V Vfit nKparam nparam Nopt true uqanalysis r Pfit
        fitparam Puq paramuq fcnals Peval).Peval =
      (finalizeFit gof Vsubsets V Vfit nKparam nparam Nopt false uqanalysis r Pfit
        fitparam Puq paramuq fcnals Peval).Peval ∧
    (finalizeFit gof Vsubsets V Vfit nKparam nparam Nopt true uqanalysis r Pfit
        fitparam Puq paramuq fcnals Peval).stats =
      (finalizeFit gof Vsubsets V Vfit nKparam nparam Nopt false uqanalysis r Pfit
        fitparam Puq paramuq fcnals Peval).stats :=
  ⟨rfl, rfl, rfl, rfl, rfl⟩

/-- C5: when renormalization is requested and the selected distribution has
nonzero trapezoidal integral over the axis, the returned distribution times
that integral recovers the pre-normalization distribution at every axis
point, and every query of the returned distribution-space
confidence-interval function equals the pre-normalization object's interval
divided by the same integral (the rewrapped `ci` closes over the deep-copied
snapshot, so no propagation is re-triggered). -/
theorem C5_renormalization (gof : List ℚ → List ℚ → Int → List ℚ)
    (Vsubsets : List (List Nat)) (V Vfit : List ℚ) (nKparam nparam Nopt : Nat)
    (r Pfit : List ℚ) (fitparam : List ℚ × List ℚ × List ℚ)
    (Puq paramuq : UncertQuant) (fcnals : List ℚ) (Peval : List (List ℚ))
    (h : trapz Pfit r ≠ 0) :
    (∀ i, (finalizeFit gof Vsubsets V Vfit nKparam nparam Nopt true true r Pfit
        fitparam Puq paramuq fcnals Peval).Pfit.getD i 0 * trapz Pfit r
      = Pfit.getD i 0) ∧
    (∀ p, (finalizeFit gof Vsubsets V Vfit nKparam nparam Nopt true true r Pfit
        fitparam Puq paramuq fcnals Peval).Puq.ci p
      = (Puq.ci p).map (· / trapz Pfit r)) := by
  constructor
  · intro i
    show (Pfit.map (· / trapz Pfit r)).getD i 0 * trapz Pfit r = Pfit.getD i 0
    rcases lt_or_le i Pfit.length with hi | hi
    · have hi2 : i < (Pfit.map (· / trapz Pfit r)).length := by simpa using hi
      rw [List.getD_eq_getElem _ _ hi2, List.getD_eq_getElem _ _ hi,
        List.getElem_map]
      exact div_mul_cancel₀ _ h
    · have hi2 : (Pfit.map (· / trapz Pfit r)).length ≤ i := by simpa using hi
      rw [List.getD_eq_default _ _ hi2, List.getD_eq_default _ _ hi, zero_mul]
  · intro p
    rfl

/-- C5 witness: axis `[0, 1]`, distribution `[1, 3]`, integral 2. -/
theorem C5_witness :
    trapz [1, 3] [0, 1] ≠ 0 ∧
    ((∀ i, (finalizeFit (fun _ _ _ => []) [] [] [] 0 0 1 true true [0, 1] [1, 3]
        ([], [], []) ⟨fun p => [p]⟩ ⟨fun _ => []⟩ [] []).Pfit.getD i 0 *
          trapz [1, 3] [0, 1]
        = ([1, 3] : List ℚ).getD i 0) ∧
      (∀ p, (finalizeFit (fun _ _ _ => []) [] [] [] 0 0 1 true true [0, 1] [1, 3]
        ([], [], []) ⟨fun p => [p]⟩ ⟨fun _ => []⟩ [] []).Puq.ci p
        = ((⟨fun p => [p]⟩ : UncertQuant).ci p).map (· / trapz [1, 3] [0, 1]))) :=
  ⟨by norm_num [trapz],
    C5_renormalization (fun _ _ _ => []) [] [] [] 0 0 1 [0, 1] [1, 3]
      ([], [], []) ⟨fun p => [p]⟩ ⟨fun _ => []⟩ [] [] (by norm_num [trapz])⟩

/-- C2 counterexample: with `N = 1` and a solver that returns exactly the
linear lower bounds it was given (hence within its box constraints), the
stored amplitude vector is `[1/100]`: the engine divides the solver's
output by the fixed scale 100, so the stored entry is below 1 and the claim
as stated fails. -/
theorem C2_counterexample :
    (∀ i < 1, (1 : ℚ) ≤ (boxRespectingSolver (([1] : List ℚ).map (· * 100))
        (List.replicate 1 1) (List.replicate 1 none)).getD i 0) ∧
    (candidateAmplitudes boxRespectingSolver [1] 1).length = 1 ∧
    ¬ ((1 : ℚ) ≤ (candidateAmplitudes boxRespectingSolver [1] 1).getD 0 0) := by
  refine ⟨?_, ?_, ?_⟩
  · intro i hi
    interval_cases i
    norm_num [boxRespectingSolver]
  · norm_num [candidateAmplitudes, boxRespectingSolver]
  · norm_num [candidateAmplitudes, boxRespectingSolver]

/-- C2 (amended): assuming the external solver returns linear parameters of
the requested length within the box constraints it was given (each entry at
least the floor 1), the stored amplitude vector has length `N` and every
entry is at least `1/100`: the floor 1 imposed on the solver divided by the
fixed signal scale 100 that the engine divides the returned amplitudes by. -/
theorem C2_amended_amplitude_floor
    (solver : List ℚ → List ℚ → List (Option ℚ) → List ℚ) (V : List ℚ)
    (Nmodels : Nat)
    (hlen : (solver (V.map (· * 100)) (List.replicate Nmodels 1)
        (List.replicate Nmodels none)).length = Nmodels)
    (hbox : ∀ i < Nmodels, (1 : ℚ) ≤ (solver (V.map (· * 100))
        (List.replicate Nmodels 1) (List.replicate Nmodels none)).getD i 0) :
    (candidateAmplitudes solver V Nmodels).length = Nmodels ∧
    ∀ i < Nmodels, (1 : ℚ) / 100 ≤ (candidateAmplitudes solver V Nmodels).getD i 0 := by
  constructor
  · simpa [candidateAmplitudes] using hlen
  · intro i hi
    show (1 : ℚ) / 100 ≤ ((solver (V.map (· * 100)) (List.replicate Nmodels 1)
        (List.replicate Nmodels none)).map (· / 100)).getD i 0
    have hibound : i < (solver (V.map (· * 100)) (List.replicate Nmodels 1)
        (List.replicate Nmodels none)).length := by rw [hlen]; exact hi
    have hi2 : i < ((solver (V.map (· * 100)) (List.replicate Nmodels 1)
        (List.replicate Nmodels none)).map (· / 100)).length := by
      simpa using hibound
    have hb := hbox i hi
    rw [List.getD_eq_getElem _ _ hibound] at hb
    rw [List.getD_eq_getElem _ _ hi2, List.getElem_map]
    exact (div_le_div_iff_of_pos_right (by norm_num)).mpr hb

/-- C2 witness for the amended statement: the box-respecting solver at
`N = 1`. -/
theorem C2_witness :
    (boxRespectingSolver (([1] : List ℚ).map (· * 100)) (List.replicate 1 1)
        (List.replicate 1 none)).length = 1 ∧
    (∀ i < 1, (1 : ℚ) ≤ (boxRespectingSolver (([1] : List ℚ).map (· * 100))
        (List.replicate 1 1) (List.replicate 1 none)).getD i 0) ∧
    ((candidateAmplitudes boxRespectingSolver [1] 1).length = 1 ∧
      ∀ i < 1, (1 : ℚ) / 100 ≤ (candidateAmplitudes boxRespectingSolver [1] 1).getD i 0) :=
  ⟨rfl,
   fun i hi => by interval_cases i; norm_num [boxRespectingSolver],
   C2_amended_amplitude_floor boxRespectingSolver [1] 1 rfl
     (fun i hi => by interval_cases i; norm_num [boxRespectingSolver])⟩

/-- C1: for every criterion name and accumulated criterion sequences, the
selector returns the index of the minimum of the chosen sequence, breaking
ties towards the first (smallest component count) occurrence, and the
selected result is exactly the stored candidate record at that index. -/
theorem C1_model_selector_argmin (m : Method) (F : Functionals)
    (records : List CandRecord) (h : F.select m ≠ []) :
    argmin (F.select m) < (F.select m).length ∧
    (∀ j < (F.select m).length,
      (F.select m).getD (argmin (F.select m)) 0 ≤ (F.select m).getD j 0) ∧
    (∀ j < argmin (F.select m),
      (F.select m).getD (argmin (F.select m)) 0 < (F.select m).getD j 0) ∧
    (selectModel F m records).2 = records.getD (argmin (F.select m)) default := by
  refine ⟨argmin_lt_length _ h, ?_, ?_, rfl⟩
  · intro j hj
    rw [getD_argmin _ h]
    exact listMin_le_getD _ j hj
  · intro j hj
    rw [getD_argmin _ h]
    exact getD_lt_of_lt_argmin _ j hj

/-- C1 witness: `aic` scores `[3, 1, 1]` over three candidate records; the
minimum 1 is attained at indices 1 and 2 and the selector picks index 1. -/
theorem C1_witness :
    exampleFunctionals.select Method.aic ≠ [] ∧
    (argmin (exampleFunctionals.select Method.aic) <
        (exampleFunctionals.select Method.aic).length ∧
      (∀ j < (exampleFunctionals.select Method.aic).length,
        (exampleFunctionals.select Method.aic).getD
            (argmin (exampleFunctionals.select Method.aic)) 0 ≤
          (exampleFunctionals.select Method.aic).getD j 0) ∧
      (∀ j < argmin (exampleFunctionals.select Method.aic),
        (exampleFunctionals.select Method.aic).getD
            (argmin (exampleFunctionals.select Method.aic)) 0 <
          (exampleFunctionals.select Method.aic).getD j 0) ∧
      (selectModel exampleFunctionals Method.aic exampleRecords).2 =
        exampleRecords.getD (argmin (exampleFunctionals.select Method.aic)) default) :=
  ⟨by decide,
    C1_model_selector_argmin Method.aic exampleFunctionals exampleRecords (by decide)⟩

end FitMultiModel
